import Mathlib

/-!
Verification of glyphgen, the LCD glyph generator.

A shallow embedding of `glyphgen.c` and the properties of its encoder
(`output_glyph`), option parser (`parse_options`) and editor loop (`main`).

Conventions of the embedding

* C `int` variables are `Int`; every value that occurs is far below `2^31`.
* `char glyph[MAX_Y][MAX_X]` is its row-major memory, a `List Char` of 50 bytes;
  `glyph[i][j]` is the byte at offset `5 * i + j`.
* Standard output is the list of the lines printed (each `printf` of the program
  prints whole lines).
* The curses screen is a grid of characters together with the cursor position.
-/

namespace Glyphgen

/-! ## Constants -/

def MAX_X : Int := 5
def MAX_Y : Int := 10

def C_X : Int := 3
def C_Y : Int := 5
def D_X : Int := 4
def D_Y : Int := 2
def N_X : Int := 5
def N_Y : Int := 8

/-- The `enum output_fmt` of the program. -/
inductive output_fmt where
  | BIN
  | HEX
  deriving DecidableEq, Repr

open output_fmt

/-- The wide string `dark_pixel`, one character U+25A1. -/
def dark_pixel : List Char := [Char.ofNat 0x25A1]

/-- The wide string `lit_pixel`, one character U+25A0. -/
def lit_pixel : List Char := [Char.ofNat 0x25A0]

/-- The zero byte. -/
def NUL : Char := Char.ofNat 0

/-! ## The glyph array -/

/-- Memory of `char glyph[MAX_Y][MAX_X]`, row-major. -/
abbrev Glyph := List Char

/-- The initializer `= { 0, }`, and also `memset(glyph, 0, sizeof(glyph))`. -/
def glyph_zero : Glyph := List.replicate 50 NUL

/-- The read `glyph[i][j]` (rows of 5 bytes): the byte at offset `5 * i + j`.
Offsets outside the memory read as the zero byte in the model. -/
def glyph_at (g : Glyph) (i j : Int) : Char :=
  if 0 ≤ 5 * i + j then g.getD (5 * i + j).toNat NUL else NUL

/-- The write `glyph[i][j] = v`. A write outside the 50 bytes of the array
(undefined in C) leaves the model's array as it is. -/
def glyph_set (g : Glyph) (i j : Int) (v : Char) : Glyph :=
  if 0 ≤ 5 * i + j ∧ 5 * i + j < 50 then g.set (5 * i + j).toNat v else g

/-! ## printf conversions -/

/-- Conversion `%d`. -/
def fmt_d (n : Int) : String := toString n

/-- Conversion `%x` of an `int` argument: the argument is read as unsigned 32 bit
and printed in lowercase hexadecimal without padding. -/
def fmt_x (n : Int) : String := String.mk (Nat.toDigits 16 (n % 2 ^ 32).toNat)

/-- Conversion `%s` of a character buffer: the bytes before the first zero byte. -/
def fmt_s (buffer : List Char) : String := String.mk (buffer.takeWhile (fun b => b ≠ NUL))

/-! ## output_glyph -/

/-- One pass of the inner loop body of `output_glyph` for column `c` of row `r`;
the pair is `(out, buffer)`. -/
def output_cell (g : Glyph) (n_x : Int) (fmt : output_fmt) (r : Int)
    (acc : Int × List Char) (c : Nat) : Int × List Char :=
  if fmt = BIN then
    (acc.1, acc.2.set c (if glyph_at g r c = '1' then '1' else '0'))
  else
    (acc.1 + (if glyph_at g r c = '1' then 2 ^ (n_x - 1 - c).toNat else 0), acc.2)

/-- The body of the outer loop of `output_glyph`: the line printed for row `r`. -/
def output_row (g : Glyph) (n_x : Int) (fmt : output_fmt) (r : Int) : String :=
  let res := (List.range n_x.toNat).foldl (output_cell g n_x fmt r) (0, List.replicate 8 NUL)
  if fmt = BIN then "  0b" ++ fmt_s res.2 else "  0x" ++ fmt_x res.1

/-- The function `output_glyph`: the lines it prints. -/
def output_glyph (g : Glyph) (n_y n_x : Int) (fmt : output_fmt) : List String :=
  [ "Glyph (" ++ fmt_d n_x ++ " x " ++ fmt_d n_y ++ ")",
    "Format: " ++ (if fmt = BIN then "bin" else "hex") ] ++
  (List.range n_y.toNat).map (fun (r : Nat) => output_row g n_x fmt (r : Int))

/-! ## print_usage and parse_options -/

/-- The code of a character constant such as `'k'`. -/
def key (ch : Char) : Int := ch.toNat

/-- The function `print_usage`: the lines it prints on standard output. -/
def print_usage (progname : String) : List String :=
  [ "Usage: " ++ progname ++ " -c <cols> -r <rows> -f <output_fmt>",
    "    -c      number of columns",
    "    -r      number of rows",
    "    -f      output format, b - binary, h or anything  else - HEX",
    "    -h      print this message" ]

/-- One return of `getopt`: the value returned and the `optarg` it leaves. -/
structure getopt_result where
  opt : Int
  optarg : String

/-- The `while ((opt = getopt(...)) > 0)` loop of `parse_options` over the successive
returns of `getopt` (the end of the list is the final return of -1). The library
function `atoi` is a parameter. The state is `(n_y, n_x, fmt)`; `none` is the
`return -1` of the usage branch. -/
def parse_loop (atoi : String → Int) :
    List getopt_result → Int × Int × output_fmt → Option (Int × Int × output_fmt)
  | [], st => some st
  | e :: rest, (n_y, n_x, fmt) =>
    if e.opt > 0 then
      if e.opt = key 'r' then parse_loop atoi rest (atoi e.optarg, n_x, fmt)
      else if e.opt = key 'c' then parse_loop atoi rest (n_y, atoi e.optarg, fmt)
      else if e.opt = key 'f' then
        parse_loop atoi rest (n_y, n_x, if e.optarg.toList.headD NUL = 'h' then HEX else BIN)
      else none
    else some (n_y, n_x, fmt)

/-- The four `if` statements at the end of `parse_options`. -/
def clamp_options (st : Int × Int × output_fmt) : Int × Int × output_fmt :=
  let n_y := st.1
  let n_x := st.2.1
  let n_x := if n_x < 1 then 1 else n_x
  let n_x := if n_x > MAX_X then MAX_X else n_x
  let n_y := if n_y < 1 then 1 else n_y
  let n_y := if n_y > MAX_Y then MAX_Y else n_y
  (n_y, n_x, st.2.2)

/-- The function `parse_options`: the final `(n_y, n_x, fmt)`, or `none` when it
returns -1. -/
def parse_options (atoi : String → Int) (opts : List getopt_result)
    (n_y n_x : Int) (fmt : output_fmt) : Option (Int × Int × output_fmt) :=
  (parse_loop atoi opts (n_y, n_x, fmt)).map clamp_options

/-- A reference `atoi` for arguments that start with decimal digits; an argument
without a leading digit gives 0. -/
def atoi_digits (s : String) : Int :=
  (((s.toList.takeWhile Char.isDigit).foldl (fun a ch => 10 * a + (ch.toNat - 48)) 0 : Nat) : Int)

/-! ## The curses screen -/

/-- The window: the character of every position and the cursor. -/
structure Screen where
  cell : Int → Int → Char
  cur_y : Int
  cur_x : Int

/-- The window after `init_screen`: `clear()` leaves blanks and the cursor at home. -/
def init_screen : Screen := ⟨fun _ _ => ' ', 0, 0⟩

/-- Curses `move(y, x)`. -/
def move (t : Screen) (y x : Int) : Screen := { t with cur_y := y, cur_x := x }

/-- Writing one character: it is stored at the cursor, and the cursor is left one
column to the right. -/
def addch (t : Screen) (ch : Char) : Screen :=
  { cell := fun y x => if y = t.cur_y ∧ x = t.cur_x then ch else t.cell y x,
    cur_y := t.cur_y,
    cur_x := t.cur_x + 1 }

/-- Curses `addwstr`. -/
def addwstr (t : Screen) (ch : List Char) : Screen := ch.foldl addch t

/-- Curses `mvaddwstr`. -/
def mvaddwstr (t : Screen) (y x : Int) (ch : List Char) : Screen := addwstr (move t y x) ch

/-- Curses `mvaddstr`. -/
def mvaddstr (t : Screen) (y x : Int) (str : String) : Screen :=
  str.toList.foldl addch (move t y x)

/-- The macro `get_cursor(y, x)`, that is `getyx(stdscr, y, x)`. -/
def get_cursor (t : Screen) : Int × Int := (t.cur_y, t.cur_x)

def move_cursor (t : Screen) (y x : Int) : Screen := move t y x

def disp_str_at (t : Screen) (y x : Int) (str : String) : Screen := mvaddstr t y x str

def disp_pixel (t : Screen) (ch : List Char) : Screen := addwstr t ch

def disp_pixel_at (t : Screen) (y x : Int) (ch : List Char) : Screen := mvaddwstr t y x ch

/-- The loop of `disp_row` with `n` passes left. -/
def disp_row_loop (t : Screen) (y x : Int) (n : Nat) (d : Int) (ch : List Char) : Screen :=
  match n with
  | 0 => t
  | k + 1 => disp_row_loop (disp_pixel_at t y x ch) y (x + d) k d ch

/-- The function `disp_row`. Its loop runs while `n > 0` and decrements `n`, so it
makes `n.toNat` passes; its init expression `(d < 1) ? 1 : d` has no effect. -/
def disp_row (t : Screen) (y x n d : Int) (ch : List Char) : Screen :=
  disp_row_loop t y x n.toNat d ch

/-- The loop of `disp_rect` with `h` passes left. -/
def disp_rect_loop (t : Screen) (y x : Int) (h : Nat) (w dy dx : Int) (ch : List Char) :
    Screen :=
  match h with
  | 0 => t
  | k + 1 => disp_rect_loop (disp_row t y x w dx ch) (y + dy) x k w dy dx ch

/-- The function `disp_rect`. -/
def disp_rect (t : Screen) (y x h w dy dx : Int) (ch : List Char) : Screen :=
  disp_rect_loop t y x h.toNat w dy dx ch

/-- The function `draw`, that is `refresh()`: it shows the window on the terminal and
leaves the window as it is. -/
def draw (t : Screen) : Screen := t

/-! ## main -/

def KEY_DOWN : Int := 258
def KEY_UP : Int := 259
def KEY_LEFT : Int := 260
def KEY_RIGHT : Int := 261

/-- The variables of `main` that the loop changes, and the window. -/
structure State where
  glyph : Glyph
  c_x : Int
  c_y : Int
  r : Int
  c : Int
  exit_cond : Bool
  scr : Screen

/-- The state of `main` when it enters the loop: the initializers of its variables,
then banner, legend, the grid of dark pixels and the cursor on the first cell. -/
def init_state (n_y n_x : Int) : State :=
  let scr := init_screen
  let scr := disp_str_at scr (C_Y - 4) C_X "LCD Glyph Generator"
  let scr := disp_str_at scr (C_Y - 2) C_X "f:fill  d:delete  c:clear  q:exit"
  let scr := disp_rect scr C_Y C_X n_y n_x D_Y D_X dark_pixel
  let scr := move_cursor scr C_Y C_X
  let scr := draw scr
  { glyph := glyph_zero, c_x := C_X, c_y := C_Y, r := 0, c := 0, exit_cond := false,
    scr := scr }

/-- The `switch (ch)` of the loop body: the state after it, and the values of
`c_y_prev` and `c_x_prev` after it. -/
def switch_key (n_y n_x : Int) (s : State) (ch : Int) : State × Int × Int :=
  let c_y_prev := s.c_y
  let c_x_prev := s.c_x
  if ch = key 'k' ∨ ch = KEY_UP then
    (if s.c_y > C_Y then { s with c_y := s.c_y - D_Y, c := s.c - 1 } else s,
      c_y_prev, c_x_prev)
  else if ch = key 'j' ∨ ch = KEY_DOWN then
    (if s.c_y < C_Y + D_Y * (n_y - 1) then { s with c_y := s.c_y + D_Y, c := s.c + 1 } else s,
      c_y_prev, c_x_prev)
  else if ch = key 'h' ∨ ch = KEY_LEFT then
    (if s.c_x > C_X then { s with c_x := s.c_x - D_X, r := s.r - 1 } else s,
      c_y_prev, c_x_prev)
  else if ch = key 'l' ∨ ch = KEY_RIGHT then
    (if s.c_x < C_X + D_X * (n_x - 1) then { s with c_x := s.c_x + D_X, r := s.r + 1 } else s,
      c_y_prev, c_x_prev)
  else if ch = key 'f' then
    let scr := disp_pixel s.scr lit_pixel
    ({ s with scr := scr, glyph := glyph_set s.glyph s.c s.r '1' }, get_cursor scr)
  else if ch = key 'd' then
    let scr := disp_pixel s.scr dark_pixel
    ({ s with scr := scr, glyph := glyph_set s.glyph s.c s.r '0' }, get_cursor scr)
  else if ch = key 'c' then
    let scr := disp_rect s.scr C_Y C_X n_y n_x D_Y D_X dark_pixel
    ({ s with c_y := C_Y, c_x := C_X, scr := scr, glyph := glyph_zero, r := 0, c := 0 },
      get_cursor scr)
  else if ch = key 'q' then
    ({ s with exit_cond := true }, c_y_prev, c_x_prev)
  else
    (s, c_y_prev, c_x_prev)

/-- One pass of the `while` loop of `main` with `ch` the key that `getch()` returns. -/
def loop_body (n_y n_x : Int) (s : State) (ch : Int) : State :=
  let sw := switch_key n_y n_x s ch
  let s1 := sw.1
  if s1.c_y ≠ sw.2.1 ∨ s1.c_x ≠ sw.2.2 then
    { s1 with scr := draw (move_cursor s1.scr s1.c_y s1.c_x) }
  else s1

/-- The `while (!exit_cond)` loop of `main` on the keys that `getch()` returns one after
the other: the state when the loop has ended or the keys are used up. -/
def run (n_y n_x : Int) (s : State) : List Int → State
  | [] => s
  | ch :: rest => if s.exit_cond then s else run n_y n_x (loop_body n_y n_x s ch) rest

/-- The part of `main` after `parse_options`: the lines printed on standard output,
or `none` when the keys are used up before the loop has ended. -/
def main_body (n_y n_x : Int) (fmt : output_fmt) (keys : List Int) : Option (List String) :=
  let s := run n_y n_x (init_state n_y n_x) keys
  if s.exit_cond then some (output_glyph s.glyph n_y n_x fmt) else none

/-- The function `main`, given the returns of `getopt` and the keys typed. -/
def main (atoi : String → Int) (progname : String) (opts : List getopt_result)
    (keys : List Int) : Option (List String) :=
  match parse_options atoi opts N_Y N_X BIN with
  | none => some (print_usage progname)
  | some (n_y, n_x, fmt) => main_body n_y n_x fmt keys

/-- A state is reachable when the loop of `main` gets to it on some keys. -/
def Reachable (n_y n_x : Int) (s : State) : Prop :=
  ∃ keys : List Int, s = run n_y n_x (init_state n_y n_x) keys

/-- A bitmap cell is lit when it holds the character 1. -/
def lit (g : Glyph) (i j : Int) : Prop := glyph_at g i j = '1'

instance (g : Glyph) (i j : Int) : Decidable (lit g i j) := by
  unfold lit; infer_instance

/-- The character the window has to show for a cell. -/
def pixel_of (g : Glyph) (i j : Int) : Char :=
  if glyph_at g i j = '1' then Char.ofNat 0x25A0 else Char.ofNat 0x25A1

/-! ## The abstract model of the specification

These definitions follow the words of the specification (Bitmap Model, Editor Loop
dispatch table, Encoder), not the code; the code is compared with them. -/

namespace Spec

/-- The four directions of `move`. -/
inductive Dir where
  | UP
  | DOWN
  | LEFT
  | RIGHT

/-- Bitmap Model: a `rows × cols` matrix of cells (`true` is lit) and the logical
cursor `(cr, cc)`. -/
structure Model where
  rows : Nat
  cols : Nat
  cells : Nat → Nat → Bool
  cr : Nat
  cc : Nat

/-- Initial state: all dark, cursor `(0, 0)`. -/
def init (rows cols : Nat) : Model :=
  { rows := rows, cols := cols, cells := fun _ _ => false, cr := 0, cc := 0 }

/-- Operation `move(dir)`: if the neighbor in `dir` exists, update `(cr, cc)`; else
no-op. -/
def move (m : Model) : Dir → Model
  | Dir.UP => if 0 < m.cr then { m with cr := m.cr - 1 } else m
  | Dir.DOWN => if m.cr + 1 < m.rows then { m with cr := m.cr + 1 } else m
  | Dir.LEFT => if 0 < m.cc then { m with cc := m.cc - 1 } else m
  | Dir.RIGHT => if m.cc + 1 < m.cols then { m with cc := m.cc + 1 } else m

/-- Operation `paint(v)`: set the cell at `(cr, cc)` to `v`. -/
def paint (m : Model) (v : Bool) : Model :=
  { m with cells := fun r c => if r = m.cr ∧ c = m.cc then v else m.cells r c }

/-- Operation `clear_all()`: every cell dark, cursor back to `(0, 0)`. -/
def clear_all (m : Model) : Model :=
  { m with cells := fun _ _ => false, cr := 0, cc := 0 }

/-- The dispatch table of the Editor Loop for the keys other than `q`. -/
def dispatch (m : Model) (ch : Int) : Model :=
  if ch = key 'k' ∨ ch = KEY_UP then move m Dir.UP
  else if ch = key 'j' ∨ ch = KEY_DOWN then move m Dir.DOWN
  else if ch = key 'h' ∨ ch = KEY_LEFT then move m Dir.LEFT
  else if ch = key 'l' ∨ ch = KEY_RIGHT then move m Dir.RIGHT
  else if ch = key 'f' then paint m true
  else if ch = key 'd' then paint m false
  else if ch = key 'c' then clear_all m
  else m

/-- The model after a sequence of keys. -/
def run (m : Model) (keys : List Int) : Model := keys.foldl dispatch m

/-- Encoder, value of a row: the sum of `bit(r, c) · 2^(cols − 1 − c)` for `c` in
`[0, cols)`. -/
def row_value (m : Model) (r : Nat) : Nat :=
  (Finset.range m.cols).sum (fun c => (if m.cells r c then 1 else 0) * 2 ^ (m.cols - 1 - c))

/-- Encoder, one data line: two spaces, then `0b` and `cols` characters, or `0x` and
the lowercase hexadecimal value without padding. -/
def encode_row (m : Model) (fmt : output_fmt) (r : Nat) : String :=
  match fmt with
  | BIN => "  0b" ++ String.mk ((List.range m.cols).map (fun c => if m.cells r c then '1' else '0'))
  | HEX => "  0x" ++ String.mk (Nat.toDigits 16 (row_value m r))

/-- Encoder: the `rows` data lines, row 0 first. -/
def encode (m : Model) (fmt : output_fmt) : List String :=
  (List.range m.rows).map (encode_row m fmt)

end Spec

/-! ## Vocabulary of the encoder properties -/

/-- Bit of a cell: 1 iff the cell holds the character 1. -/
def bit (g : Glyph) (r c : Nat) : Nat := if glyph_at g r c = '1' then 1 else 0

/-- The character BIN prints for a cell. -/
def bin_char (g : Glyph) (r c : Nat) : Char := if glyph_at g r c = '1' then '1' else '0'

/-- Value of a string of binary digits read as a base-2 numeral, first character
most significant. -/
def base2 (body : List Char) : Nat :=
  body.foldl (fun acc ch => 2 * acc + (if ch = '1' then 1 else 0)) 0

/-- The invariant of the editor loop: the window cursor sits on the tracked screen
coordinates, these are the projection of the indices, the indices name a cell of the
grid, the array has its 50 bytes, and the window shows every cell as the array has
it. -/
structure Inv (n_y n_x : Int) (s : State) : Prop where
  cur_y : s.scr.cur_y = s.c_y
  cur_x : s.scr.cur_x = s.c_x
  proj_y : s.c_y = C_Y + D_Y * s.c
  proj_x : s.c_x = C_X + D_X * s.r
  c_lo : 0 ≤ s.c
  c_hi : s.c < n_y
  r_lo : 0 ≤ s.r
  r_hi : s.r < n_x
  len : s.glyph.length = 50
  shown : ∀ i j : Int, 0 ≤ i → i < n_y → 0 ≤ j → j < n_x →
    s.scr.cell (C_Y + D_Y * i) (C_X + D_X * j) = pixel_of s.glyph i j


/-- The relation between the state of the code and the state of the abstract model:
same dimensions, same cursor, same lit cells, and the loop still running. -/
structure Sim (rows cols : Nat) (s : State) (m : Spec.Model) : Prop where
  rows_eq : m.rows = rows
  cols_eq : m.cols = cols
  cr_eq : s.c = m.cr
  cc_eq : s.r = m.cc
  cells_eq : ∀ i j : Nat, i < rows → j < cols →
    (glyph_at s.glyph i j = '1' ↔ m.cells i j = true)
  running : s.exit_cond = false

/-! ## Encoder: the inner loop -/

theorem bin_char_ne_NUL (g : Glyph) (r c : Nat) : bin_char g r c ≠ NUL := by
  unfold bin_char
  split <;> decide

/-- In BIN format the inner loop fills the first `n` bytes of the buffer and leaves
`out` alone. -/
theorem fold_bin (g : Glyph) (n_x : Int) (r : Nat) (n : Nat) (hn : n ≤ 8) :
    (List.range n).foldl (output_cell g n_x BIN r) (0, List.replicate 8 NUL) =
      (0, (List.range n).map (bin_char g r) ++ List.replicate (8 - n) NUL) := by
  induction n with
  | zero => simp
  | succ n ih =>
    rw [List.range_succ, List.foldl_append, ih (by omega)]
    have h8 : 8 - n = (8 - (n + 1)) + 1 := by omega
    simp only [List.foldl_cons, List.foldl_nil, output_cell, if_true, List.map_append,
      List.map_cons, List.map_nil, List.append_assoc, List.singleton_append]
    rw [h8, List.replicate_succ, List.set_append_right _ _ (by simp)]
    simp [bin_char]

/-- In HEX format the inner loop adds the weights of the lit cells and leaves the
buffer alone. -/
theorem fold_hex (g : Glyph) (n_x : Int) (r : Nat) (n : Nat) :
    (List.range n).foldl (output_cell g n_x HEX r) (0, List.replicate 8 NUL) =
      ((((Finset.range n).sum (fun c => bit g r c * 2 ^ (n_x - 1 - c).toNat) : Nat) : Int),
        List.replicate 8 NUL) := by
  induction n with
  | zero => simp
  | succ n ih =>
    rw [List.range_succ, List.foldl_append, ih, Finset.sum_range_succ]
    simp only [List.foldl_cons, List.foldl_nil, output_cell, bit, reduceCtorEq, if_false]
    split <;> simp

theorem base2_append (l : List Char) (ch : Char) :
    base2 (l ++ [ch]) = 2 * base2 l + (if ch = '1' then 1 else 0) := by
  simp [base2, List.foldl_append]

theorem bin_char_eq_one (g : Glyph) (r c : Nat) :
    (if bin_char g r c = '1' then 1 else 0) = bit g r c := by
  unfold bin_char bit
  split <;> simp

/-- The BIN body of a row, read in base 2, is the weighted sum of its bits. -/
theorem base2_body (g : Glyph) (r : Nat) (n : Nat) :
    base2 ((List.range n).map (bin_char g r)) =
      (Finset.range n).sum (fun c => bit g r c * 2 ^ (n - 1 - c)) := by
  induction n with
  | zero => simp [base2]
  | succ n ih =>
    rw [List.range_succ, List.map_append, List.map_cons, List.map_nil, base2_append, ih,
      Finset.sum_range_succ, Finset.mul_sum, bin_char_eq_one]
    congr 1
    · apply Finset.sum_congr rfl
      intro c hc
      have hc' : c < n := Finset.mem_range.mp hc
      have : n + 1 - 1 - c = (n - 1 - c) + 1 := by omega
      rw [this, pow_succ]
      ring
    · simp

theorem base2_lt (l : List Char) : base2 l < 2 ^ l.length := by
  induction l using List.reverseRecOn with
  | nil => simp [base2]
  | append_singleton l ch ih =>
    rw [base2_append, List.length_append, List.length_singleton, pow_succ]
    split <;> omega

theorem output_row_bin (g : Glyph) (cols r : Nat) (hc : cols ≤ 7) :
    output_row g cols BIN r = "  0b" ++ String.mk ((List.range cols).map (bin_char g r)) := by
  unfold output_row
  simp only [Int.toNat_ofNat, if_true]
  rw [fold_bin g cols r cols (by omega)]
  have h8 : 8 - cols = (8 - cols - 1) + 1 := by omega
  simp only [fmt_s]
  rw [h8, List.replicate_succ, List.takeWhile_append_of_pos, List.takeWhile_cons_of_neg]
  · simp
  · simp
  · intro a ha
    obtain ⟨c, _, rfl⟩ := List.mem_map.mp ha
    simpa using bin_char_ne_NUL g r c

theorem output_row_hex (g : Glyph) (cols r : Nat) (hc : cols ≤ 31) :
    output_row g cols HEX r =
      "  0x" ++ String.mk (Nat.toDigits 16 (base2 ((List.range cols).map (bin_char g r)))) := by
  unfold output_row
  simp only [Int.toNat_ofNat, fold_hex, reduceCtorEq, if_false, fmt_x]
  have hsum : (Finset.range cols).sum (fun c => bit g r c * 2 ^ ((cols : Int) - 1 - c).toNat) =
      base2 ((List.range cols).map (bin_char g r)) := by
    rw [base2_body]
    apply Finset.sum_congr rfl
    intro c hc
    have hc' : c < cols := Finset.mem_range.mp hc
    have : ((cols : Int) - 1 - c).toNat = cols - 1 - c := by omega
    rw [this]
  rw [hsum]
  have hlt := base2_lt ((List.range cols).map (bin_char g r))
  simp only [List.length_map, List.length_range] at hlt
  have h32 : (2 : Nat) ^ cols < 2 ^ 32 := Nat.pow_lt_pow_right (by norm_num) (by omega)
  congr 3
  have : ((base2 ((List.range cols).map (bin_char g r)) : Nat) : Int) % 2 ^ 32 =
      (base2 ((List.range cols).map (bin_char g r)) : Nat) := by
    apply Int.emod_eq_of_lt
    · positivity
    · exact_mod_cast lt_trans hlt h32
  rw [this, Int.toNat_ofNat]

/-! ## The glyph array: reads after writes -/

theorem glyph_at_set_same (g : Glyph) (i j : Int) (v : Char) (hlen : g.length = 50)
    (h0 : 0 ≤ 5 * i + j) (h1 : 5 * i + j < 50) :
    glyph_at (glyph_set g i j v) i j = v := by
  have hlt : (5 * i + j).toNat < g.length := by omega
  simp [glyph_at, glyph_set, h0, h1, hlt]

theorem glyph_at_set_other (g : Glyph) (i j i2 j2 : Int) (v : Char)
    (hne : 5 * i2 + j2 ≠ 5 * i + j) :
    glyph_at (glyph_set g i j v) i2 j2 = glyph_at g i2 j2 := by
  unfold glyph_at glyph_set
  by_cases h2 : 0 ≤ 5 * i2 + j2
  · by_cases h : 0 ≤ 5 * i + j ∧ 5 * i + j < 50
    · have hn : (5 * i + j).toNat ≠ (5 * i2 + j2).toNat := by omega
      simp [h2, h, List.getElem?_set_ne hn]
    · simp [h]
  · simp [h2]

theorem glyph_set_length (g : Glyph) (i j : Int) (v : Char) :
    (glyph_set g i j v).length = g.length := by
  unfold glyph_set
  split <;> simp

theorem glyph_at_zero (i j : Int) : glyph_at glyph_zero i j = NUL := by
  unfold glyph_at glyph_zero
  split
  · simp only [List.getD_eq_getElem?_getD, List.getElem?_replicate]
    split <;> rfl
  · rfl

theorem pixel_of_zero (i j : Int) : pixel_of glyph_zero i j = Char.ofNat 0x25A1 := by
  unfold pixel_of
  rw [glyph_at_zero]
  decide

/-! ## The window: what the drawing loops leave -/

theorem disp_pixel_at_cell (t : Screen) (y x : Int) (ch : Char) (y2 x2 : Int) :
    (disp_pixel_at t y x [ch]).cell y2 x2 = if y2 = y ∧ x2 = x then ch else t.cell y2 x2 := by
  simp [disp_pixel_at, mvaddwstr, addwstr, addch, move]

theorem disp_row_loop_keep (ch : Char) (y d : Int) (n : Nat) (t : Screen) (x y2 x2 : Int)
    (h : t.cell y2 x2 = ch) : (disp_row_loop t y x n d [ch]).cell y2 x2 = ch := by
  induction n generalizing t x with
  | zero => simpa [disp_row_loop] using h
  | succ n ih =>
    rw [disp_row_loop]
    apply ih
    rw [disp_pixel_at_cell]
    split <;> simp [h]

theorem disp_row_loop_write (ch : Char) (y d : Int) (n : Nat) (t : Screen) (x : Int)
    (j : Nat) (hj : j < n) : (disp_row_loop t y x n d [ch]).cell y (x + d * j) = ch := by
  induction n generalizing t x j with
  | zero => omega
  | succ n ih =>
    rw [disp_row_loop]
    cases j with
    | zero =>
      apply disp_row_loop_keep
      simp [disp_pixel_at_cell]
    | succ j =>
      have := ih (disp_pixel_at t y x [ch]) (x + d) j (by omega)
      have e : x + d * ((j + 1 : Nat) : Int) = x + d + d * (j : Int) := by push_cast; ring
      rw [e]
      exact this

theorem disp_rect_loop_keep (ch : Char) (w dy dx : Int) (h : Nat) (t : Screen)
    (y x y2 x2 : Int) (hc : t.cell y2 x2 = ch) :
    (disp_rect_loop t y x h w dy dx [ch]).cell y2 x2 = ch := by
  induction h generalizing t y with
  | zero => simpa [disp_rect_loop] using hc
  | succ h ih =>
    rw [disp_rect_loop]
    apply ih
    exact disp_row_loop_keep ch y dx _ t x y2 x2 hc

theorem disp_rect_loop_write (ch : Char) (w dy dx : Int) (h : Nat) (t : Screen)
    (y x : Int) (i j : Nat) (hi : i < h) (hj : j < w.toNat) :
    (disp_rect_loop t y x h w dy dx [ch]).cell (y + dy * i) (x + dx * j) = ch := by
  induction h generalizing t y i with
  | zero => omega
  | succ h ih =>
    rw [disp_rect_loop]
    cases i with
    | zero =>
      apply disp_rect_loop_keep
      have := disp_row_loop_write ch y dx w.toNat t x j hj
      simpa [disp_row] using this
    | succ i =>
      have := ih (disp_row t y x w dx [ch]) (y + dy) i (by omega)
      have e : y + dy * ((i + 1 : Nat) : Int) = y + dy + dy * (i : Int) := by push_cast; ring
      rw [e]
      exact this

/-- After `disp_rect` every cell of the grid shows the pixel drawn. -/
theorem disp_rect_cell (t : Screen) (n_y n_x : Int) (i j : Int)
    (hi0 : 0 ≤ i) (hi : i < n_y) (hj0 : 0 ≤ j) (hj : j < n_x) :
    (disp_rect t C_Y C_X n_y n_x D_Y D_X dark_pixel).cell (C_Y + D_Y * i) (C_X + D_X * j) =
      Char.ofNat 0x25A1 := by
  have := disp_rect_loop_write (Char.ofNat 0x25A1) n_x D_Y D_X n_y.toNat t C_Y C_X
    i.toNat j.toNat (by omega) (by omega)
  rw [Int.toNat_of_nonneg hi0, Int.toNat_of_nonneg hj0] at this
  exact this

/-! ## The loop body, key by key -/

theorem key_k : key 'k' = 107 := by decide
theorem key_j : key 'j' = 106 := by decide
theorem key_h : key 'h' = 104 := by decide
theorem key_l : key 'l' = 108 := by decide
theorem key_f : key 'f' = 102 := by decide
theorem key_d : key 'd' = 100 := by decide
theorem key_c : key 'c' = 99 := by decide
theorem key_q : key 'q' = 113 := by decide
theorem key_r : key 'r' = 114 := by decide

theorem loop_body_up (n_y n_x : Int) (s : State) (ch : Int) (hk : ch = key 'k' ∨ ch = KEY_UP)
    (hinv : Inv n_y n_x s) :
    loop_body n_y n_x s ch =
      if 0 < s.c then
        { s with c_y := s.c_y - D_Y, c := s.c - 1, scr := move s.scr (s.c_y - D_Y) s.c_x }
      else s := by
  have hy := hinv.proj_y
  simp only [C_Y, D_Y] at hy
  by_cases hc : 0 < s.c
  · have : s.c_y > 5 := by omega
    simp [loop_body, switch_key, hk, C_Y, D_Y, hc, this, draw, move_cursor]
  · have : ¬ s.c_y > 5 := by omega
    simp [loop_body, switch_key, hk, C_Y, D_Y, hc, this]

theorem loop_body_down (n_y n_x : Int) (s : State) (ch : Int)
    (hk : ch = key 'j' ∨ ch = KEY_DOWN) (hinv : Inv n_y n_x s) :
    loop_body n_y n_x s ch =
      if s.c < n_y - 1 then
        { s with c_y := s.c_y + D_Y, c := s.c + 1, scr := move s.scr (s.c_y + D_Y) s.c_x }
      else s := by
  have hy := hinv.proj_y
  simp only [C_Y, D_Y] at hy
  have hn : ¬ (ch = key 'k' ∨ ch = KEY_UP) := by
    rcases hk with rfl | rfl <;> simp [key_k, key_j, KEY_UP, KEY_DOWN]
  by_cases hc : s.c < n_y - 1
  · have : s.c_y < 5 + 2 * (n_y - 1) := by omega
    simp [loop_body, switch_key, hn, hk, C_Y, D_Y, hc, this, draw, move_cursor]
  · have : ¬ s.c_y < 5 + 2 * (n_y - 1) := by omega
    simp [loop_body, switch_key, hn, hk, C_Y, D_Y, hc, this]

theorem loop_body_left (n_y n_x : Int) (s : State) (ch : Int)
    (hk : ch = key 'h' ∨ ch = KEY_LEFT) (hinv : Inv n_y n_x s) :
    loop_body n_y n_x s ch =
      if 0 < s.r then
        { s with c_x := s.c_x - D_X, r := s.r - 1, scr := move s.scr s.c_y (s.c_x - D_X) }
      else s := by
  have hx := hinv.proj_x
  simp only [C_X, D_X] at hx
  have hn1 : ¬ (ch = key 'k' ∨ ch = KEY_UP) := by
    rcases hk with rfl | rfl <;> simp [key_k, key_h, KEY_UP, KEY_LEFT]
  have hn2 : ¬ (ch = key 'j' ∨ ch = KEY_DOWN) := by
    rcases hk with rfl | rfl <;> simp [key_j, key_h, KEY_DOWN, KEY_LEFT]
  by_cases hc : 0 < s.r
  · have : s.c_x > 3 := by omega
    simp [loop_body, switch_key, hn1, hn2, hk, C_X, D_X, hc, this, draw, move_cursor]
  · have : ¬ s.c_x > 3 := by omega
    simp [loop_body, switch_key, hn1, hn2, hk, C_X, D_X, hc, this]

theorem loop_body_right (n_y n_x : Int) (s : State) (ch : Int)
    (hk : ch = key 'l' ∨ ch = KEY_RIGHT) (hinv : Inv n_y n_x s) :
    loop_body n_y n_x s ch =
      if s.r < n_x - 1 then
        { s with c_x := s.c_x + D_X, r := s.r + 1, scr := move s.scr s.c_y (s.c_x + D_X) }
      else s := by
  have hx := hinv.proj_x
  simp only [C_X, D_X] at hx
  have hn1 : ¬ (ch = key 'k' ∨ ch = KEY_UP) := by
    rcases hk with rfl | rfl <;> simp [key_k, key_l, KEY_UP, KEY_RIGHT]
  have hn2 : ¬ (ch = key 'j' ∨ ch = KEY_DOWN) := by
    rcases hk with rfl | rfl <;> simp [key_j, key_l, KEY_DOWN, KEY_RIGHT]
  have hn3 : ¬ (ch = key 'h' ∨ ch = KEY_LEFT) := by
    rcases hk with rfl | rfl <;> simp [key_h, key_l, KEY_LEFT, KEY_RIGHT]
  by_cases hc : s.r < n_x - 1
  · have : s.c_x < 3 + 4 * (n_x - 1) := by omega
    simp [loop_body, switch_key, hn1, hn2, hn3, hk, C_X, D_X, hc, this, draw, move_cursor]
  · have : ¬ s.c_x < 3 + 4 * (n_x - 1) := by omega
    simp [loop_body, switch_key, hn1, hn2, hn3, hk, C_X, D_X, hc, this]

/-- Key `f` or `d`: the pixel is written at the window cursor, the array cell under
the indices is set, and the cursor is put back. -/
theorem loop_body_paint (n_y n_x : Int) (s : State) (hinv : Inv n_y n_x s) :
    loop_body n_y n_x s (key 'f') =
      { s with glyph := glyph_set s.glyph s.c s.r '1',
               scr := move (addch s.scr (Char.ofNat 0x25A0)) s.c_y s.c_x } ∧
    loop_body n_y n_x s (key 'd') =
      { s with glyph := glyph_set s.glyph s.c s.r '0',
               scr := move (addch s.scr (Char.ofNat 0x25A1)) s.c_y s.c_x } := by
  have hx := hinv.cur_x
  constructor <;>
  simp [loop_body, switch_key, key_k, key_j, key_h, key_l, key_f, key_d, KEY_UP, KEY_DOWN,
    KEY_LEFT, KEY_RIGHT, get_cursor, disp_pixel, addwstr, lit_pixel, dark_pixel, addch, hx,
    draw, move_cursor, move]

/-- Key `c`, in any state. -/
theorem loop_body_clear (n_y n_x : Int) (s : State) :
    loop_body n_y n_x s (key 'c') =
      { glyph := glyph_zero, c_x := C_X, c_y := C_Y, r := 0, c := 0, exit_cond := s.exit_cond,
        scr := move (disp_rect s.scr C_Y C_X n_y n_x D_Y D_X dark_pixel) C_Y C_X } := by
  simp only [loop_body, switch_key, key_k, key_j, key_h, key_l, key_f, key_d, key_c, KEY_UP,
    KEY_DOWN, KEY_LEFT, KEY_RIGHT, get_cursor, draw, move_cursor]
  norm_num
  intro h1 h2
  generalize disp_rect s.scr C_Y C_X n_y n_x D_Y D_X dark_pixel = t at h1 h2 ⊢
  cases t
  simp only at h1 h2
  subst h1 h2
  rfl

theorem loop_body_quit (n_y n_x : Int) (s : State) :
    loop_body n_y n_x s (key 'q') = { s with exit_cond := true } := by
  simp [loop_body, switch_key, key_k, key_j, key_h, key_l, key_f, key_d, key_c, key_q, KEY_UP,
    KEY_DOWN, KEY_LEFT, KEY_RIGHT]

theorem loop_body_other (n_y n_x : Int) (s : State) (ch : Int)
    (h1 : ¬ (ch = key 'k' ∨ ch = KEY_UP)) (h2 : ¬ (ch = key 'j' ∨ ch = KEY_DOWN))
    (h3 : ¬ (ch = key 'h' ∨ ch = KEY_LEFT)) (h4 : ¬ (ch = key 'l' ∨ ch = KEY_RIGHT))
    (h5 : ch ≠ key 'f') (h6 : ch ≠ key 'd') (h7 : ch ≠ key 'c') (h8 : ch ≠ key 'q') :
    loop_body n_y n_x s ch = s := by
  simp [loop_body, switch_key, h1, h2, h3, h4, h5, h6, h7, h8]

/-! ## The invariant holds at every pass -/

theorem init_inv (n_y n_x : Int) (hy1 : 1 ≤ n_y) (hx1 : 1 ≤ n_x) :
    Inv n_y n_x (init_state n_y n_x) := by
  refine ⟨rfl, rfl, rfl, rfl, le_refl _, by simpa [init_state] using hy1, le_refl _,
    by simpa [init_state] using hx1, by simp [init_state, glyph_zero], ?_⟩
  intro i j hi0 hi hj0 hj
  simp only [init_state, draw, move_cursor, move]
  rw [disp_rect_cell _ n_y n_x i j hi0 hi hj0 hj, pixel_of_zero]

theorem inv_paint (n_y n_x : Int) (s : State) (hy : n_y ≤ 10) (hx : n_x ≤ 5)
    (hinv : Inv n_y n_x s) (v px : Char) (hpx : px = if v = '1' then Char.ofNat 0x25A0
      else Char.ofNat 0x25A1) :
    Inv n_y n_x { s with glyph := glyph_set s.glyph s.c s.r v,
                         scr := move (addch s.scr px) s.c_y s.c_x } := by
  obtain ⟨h1, h2, h3, h4, h5, h6, h7, h8, h9, h10⟩ := hinv
  refine ⟨rfl, rfl, h3, h4, h5, h6, h7, h8, by simpa [glyph_set_length] using h9, ?_⟩
  intro i j hi0 hi hj0 hj
  simp only [move, addch, h1, h2]
  simp only [C_Y, D_Y, C_X, D_X] at h3 h4 h10 ⊢
  by_cases hij : i = s.c ∧ j = s.r
  · obtain ⟨rfl, rfl⟩ := hij
    have : pixel_of (glyph_set s.glyph s.c s.r v) s.c s.r = px := by
      unfold pixel_of
      rw [glyph_at_set_same _ _ _ _ h9 (by omega) (by omega), hpx]
    simp [h3, h4, this]
  · have hpos : ¬ (5 + 2 * i = s.c_y ∧ 3 + 4 * j = s.c_x) := by
      intro hp
      apply hij
      constructor <;> omega
    have hoff : 5 * i + j ≠ 5 * s.c + s.r := by
      intro ho
      apply hij
      constructor <;> omega
    rw [if_neg hpos, h10 i j hi0 hi hj0 hj]
    unfold pixel_of
    rw [glyph_at_set_other _ _ _ _ _ _ hoff]

theorem loop_body_inv (n_y n_x : Int) (s : State) (ch : Int)
    (hy1 : 1 ≤ n_y) (hy : n_y ≤ 10) (hx1 : 1 ≤ n_x) (hx : n_x ≤ 5)
    (hinv : Inv n_y n_x s) : Inv n_y n_x (loop_body n_y n_x s ch) := by
  have hall := hinv
  obtain ⟨h1, h2, h3, h4, h5, h6, h7, h8, h9, h10⟩ := hinv
  by_cases k1 : ch = key 'k' ∨ ch = KEY_UP
  · rw [loop_body_up n_y n_x s ch k1 hall]
    split
    · exact ⟨rfl, rfl, by simp only [h3]; ring, h4, by simp only; omega,
        by simp only; omega, h7, h8, h9, h10⟩
    · exact hall
  by_cases k2 : ch = key 'j' ∨ ch = KEY_DOWN
  · rw [loop_body_down n_y n_x s ch k2 hall]
    split
    · exact ⟨rfl, rfl, by simp only [h3]; ring, h4, by simp only; omega,
        by simp only; omega, h7, h8, h9, h10⟩
    · exact hall
  by_cases k3 : ch = key 'h' ∨ ch = KEY_LEFT
  · rw [loop_body_left n_y n_x s ch k3 hall]
    split
    · exact ⟨rfl, rfl, h3, by simp only [h4]; ring, h5, h6, by simp only; omega,
        by simp only; omega, h9, h10⟩
    · exact hall
  by_cases k4 : ch = key 'l' ∨ ch = KEY_RIGHT
  · rw [loop_body_right n_y n_x s ch k4 hall]
    split
    · exact ⟨rfl, rfl, h3, by simp only [h4]; ring, h5, h6, by simp only; omega,
        by simp only; omega, h9, h10⟩
    · exact hall
  by_cases k5 : ch = key 'f'
  · rw [k5, (loop_body_paint n_y n_x s hall).1]
    exact inv_paint n_y n_x s hy hx hall '1' _ (by decide)
  by_cases k6 : ch = key 'd'
  · rw [k6, (loop_body_paint n_y n_x s hall).2]
    exact inv_paint n_y n_x s hy hx hall '0' _ (by decide)
  by_cases k7 : ch = key 'c'
  · rw [k7, loop_body_clear]
    refine ⟨rfl, rfl, rfl, rfl, le_refl _, by simpa using hy1, le_refl _, by simpa using hx1,
      by simp [glyph_zero], ?_⟩
    intro i j hi0 hi hj0 hj
    simp only [move]
    rw [disp_rect_cell _ n_y n_x i j hi0 hi hj0 hj, pixel_of_zero]
  by_cases k8 : ch = key 'q'
  · rw [k8, loop_body_quit]
    exact ⟨h1, h2, h3, h4, h5, h6, h7, h8, h9, h10⟩
  · rw [loop_body_other n_y n_x s ch k1 k2 k3 k4 k5 k6 k7 k8]
    exact hall

theorem run_inv (n_y n_x : Int) (hy1 : 1 ≤ n_y) (hy : n_y ≤ 10) (hx1 : 1 ≤ n_x) (hx : n_x ≤ 5)
    (keys : List Int) (s : State) (hinv : Inv n_y n_x s) :
    Inv n_y n_x (run n_y n_x s keys) := by
  induction keys generalizing s with
  | nil => exact hinv
  | cons ch rest ih =>
    rw [run]
    split
    · exact hinv
    · exact ih _ (loop_body_inv n_y n_x s ch hy1 hy hx1 hx hinv)

theorem reachable_inv (n_y n_x : Int) (hy1 : 1 ≤ n_y) (hy : n_y ≤ 10) (hx1 : 1 ≤ n_x)
    (hx : n_x ≤ 5) (s : State) (hs : Reachable n_y n_x s) : Inv n_y n_x s := by
  obtain ⟨keys, rfl⟩ := hs
  exact run_inv n_y n_x hy1 hy hx1 hx keys _ (init_inv n_y n_x hy1 hx1)

/-! ## The encoder -/

theorem output_glyph_data_line (g : Glyph) (rows cols : Nat) (fmt : output_fmt) (r : Nat)
    (hr : r < rows) :
    (output_glyph g rows cols fmt)[2 + r]? = some (output_row g cols fmt r) := by
  unfold output_glyph
  rw [List.getElem?_append_right (by simp)]
  simp [hr]

/-- C1: for every bitmap, every `cols` in [1,5] and every row `r < rows`, the HEX data
line of row `r` is two spaces, `0x` and the lowercase unpadded hexadecimal numeral of
the number that the body of the BIN data line of the same row denotes in base 2 with
column 0 most significant, and that number is the sum of `bit(r,c) * 2^(cols-1-c)`
over the columns. -/
theorem hex_line_is_value_of_bin_body (g : Glyph) (rows cols r : Nat)
    (hc1 : 1 ≤ cols) (hc5 : cols ≤ 5) (hr : r < rows) :
    ∃ body : List Char,
      (output_glyph g rows cols BIN)[2 + r]? = some ("  0b" ++ String.mk body) ∧
      (output_glyph g rows cols HEX)[2 + r]? =
        some ("  0x" ++ String.mk (Nat.toDigits 16 (base2 body))) ∧
      base2 body = (Finset.range cols).sum (fun c => bit g r c * 2 ^ (cols - 1 - c)) := by
  refine ⟨(List.range cols).map (bin_char g r), ?_, ?_, base2_body g r cols⟩
  · rw [output_glyph_data_line g rows cols BIN r hr, output_row_bin g cols r (by omega)]
  · rw [output_glyph_data_line g rows cols HEX r hr, output_row_hex g cols r (by omega)]

/-- Witness of C1: the row lit, lit, dark with `cols = 3` prints `0x6`, and a row of
five lit cells prints `0x1f`. -/
theorem hex_line_is_value_of_bin_body_witness :
    (output_glyph ('1' :: '1' :: '0' :: List.replicate 47 NUL) 1 3 HEX)[2]? = some "  0x6" ∧
    (output_glyph (List.replicate 5 '1' ++ List.replicate 45 NUL) 1 5 HEX)[2]? =
      some "  0x1f" ∧
    ∃ body : List Char,
      (output_glyph ('1' :: '1' :: '0' :: List.replicate 47 NUL) (1 : Nat) (3 : Nat) BIN)[2 + 0]? =
        some ("  0b" ++ String.mk body) ∧
      (output_glyph ('1' :: '1' :: '0' :: List.replicate 47 NUL) (1 : Nat) (3 : Nat) HEX)[2 + 0]? =
        some ("  0x" ++ String.mk (Nat.toDigits 16 (base2 body))) ∧
      base2 body = (Finset.range 3).sum
        (fun c => bit ('1' :: '1' :: '0' :: List.replicate 47 NUL) 0 c * 2 ^ (3 - 1 - c)) :=
  ⟨by decide, by decide,
    hex_line_is_value_of_bin_body ('1' :: '1' :: '0' :: List.replicate 47 NUL) 1 3 0
      (by decide) (by decide) (by decide)⟩

/-- C2: for `rows` in [1,10] and `cols` in [1,5], `output_glyph` in BIN format prints
the two header lines and then exactly `rows` data lines, row 0 first; line `r` is two
spaces, `0b` and exactly `cols` characters, the `c`-th being 1 if cell `(r,c)` holds
the character 1 and 0 otherwise. -/
theorem output_glyph_bin (g : Glyph) (rows cols : Nat)
    (_hr1 : 1 ≤ rows) (_hr10 : rows ≤ 10) (_hc1 : 1 ≤ cols) (hc5 : cols ≤ 5) :
    output_glyph g rows cols BIN =
      [ "Glyph (" ++ toString cols ++ " x " ++ toString rows ++ ")", "Format: bin" ] ++
      (List.range rows).map (fun (r : Nat) => "  0b" ++ String.mk ((List.range cols).map
        (fun (c : Nat) => if lit g r c then '1' else '0'))) := by
  unfold output_glyph
  congr 1
  simp only [Int.toNat_ofNat]
  apply List.map_congr_left
  intro r _
  rw [output_row_bin g cols r (by omega)]
  rfl

/-- Witness of C2: scenario S1 of the specification, a 3 x 2 glyph with cell (0,0)
lit. -/
theorem output_glyph_bin_witness :
    output_glyph ('1' :: List.replicate 49 NUL) 2 3 BIN =
      ["Glyph (3 x 2)", "Format: bin", "  0b100", "  0b000"] ∧
    output_glyph ('1' :: List.replicate 49 NUL) (2 : Nat) (3 : Nat) BIN =
      [ "Glyph (" ++ toString 3 ++ " x " ++ toString 2 ++ ")", "Format: bin" ] ++
      (List.range 2).map (fun (r : Nat) => "  0b" ++ String.mk ((List.range 3).map
        (fun (c : Nat) => if lit ('1' :: List.replicate 49 NUL) r c then '1' else '0'))) :=
  ⟨by decide, output_glyph_bin ('1' :: List.replicate 49 NUL) 2 3
    (by decide) (by decide) (by decide) (by decide)⟩

/-! ## The editor loop -/

/-- C3: for `rows` in [1,10] and `cols` in [1,5], whatever keys the loop is fed from
its initial state, after each key handled (after the first `k` keys, for every `k`)
the row index `c` is in `[0, rows)` and the column index `r` is in `[0, cols)`. -/
theorem cursor_always_valid (n_y n_x : Int) (hy1 : 1 ≤ n_y) (hy : n_y ≤ 10)
    (hx1 : 1 ≤ n_x) (hx : n_x ≤ 5) (keys : List Int) (k : Nat) :
    0 ≤ (run n_y n_x (init_state n_y n_x) (keys.take k)).c ∧
    (run n_y n_x (init_state n_y n_x) (keys.take k)).c < n_y ∧
    0 ≤ (run n_y n_x (init_state n_y n_x) (keys.take k)).r ∧
    (run n_y n_x (init_state n_y n_x) (keys.take k)).r < n_x := by
  have h := run_inv n_y n_x hy1 hy hx1 hx (keys.take k) _ (init_inv n_y n_x hy1 hx1)
  exact ⟨h.c_lo, h.c_hi, h.r_lo, h.r_hi⟩

/-- Witness of C3: a 2 x 3 grid, four times `j` then once `l`. -/
theorem cursor_always_valid_witness :
    (run 2 3 (init_state 2 3) ([key 'j', key 'j', key 'j', key 'j', key 'l'].take 5)).c = 1 ∧
    0 ≤ (run 2 3 (init_state 2 3) ([key 'j', key 'j', key 'j', key 'j', key 'l'].take 5)).c ∧
    (run 2 3 (init_state 2 3) ([key 'j', key 'j', key 'j', key 'j', key 'l'].take 5)).c < 2 ∧
    0 ≤ (run 2 3 (init_state 2 3) ([key 'j', key 'j', key 'j', key 'j', key 'l'].take 5)).r ∧
    (run 2 3 (init_state 2 3) ([key 'j', key 'j', key 'j', key 'j', key 'l'].take 5)).r < 3 :=
  ⟨by decide, cursor_always_valid 2 3 (by decide) (by decide) (by decide) (by decide)
    [key 'j', key 'j', key 'j', key 'j', key 'l'] 5⟩

/-- C8: for `rows` in [1,10] and `cols` in [1,5], after the initial drawing and after
the handling of each key of any key sequence, the window shows at position
`(5 + 2*i, 3 + 4*j)` the lit square U+25A0 if bitmap cell `(i,j)` is lit and the dark
square U+25A1 otherwise, for every cell `(i,j)` of the grid. -/
theorem screen_shows_bitmap (n_y n_x : Int) (hy1 : 1 ≤ n_y) (hy : n_y ≤ 10)
    (hx1 : 1 ≤ n_x) (hx : n_x ≤ 5) (keys : List Int) (k : Nat) (i j : Int)
    (hi0 : 0 ≤ i) (hi : i < n_y) (hj0 : 0 ≤ j) (hj : j < n_x) :
    (run n_y n_x (init_state n_y n_x) (keys.take k)).scr.cell (5 + 2 * i) (3 + 4 * j) =
      if lit (run n_y n_x (init_state n_y n_x) (keys.take k)).glyph i j
      then Char.ofNat 0x25A0 else Char.ofNat 0x25A1 := by
  have h := run_inv n_y n_x hy1 hy hx1 hx (keys.take k) _ (init_inv n_y n_x hy1 hx1)
  exact h.shown i j hi0 hi hj0 hj

/-- Witness of C8: on a 2 x 3 grid after the keys `f l f`, cell (0,1) is lit and the
window shows the lit square at (5, 7). -/
theorem screen_shows_bitmap_witness :
    (run 2 3 (init_state 2 3) ([key 'f', key 'l', key 'f'].take 3)).scr.cell 5 7 =
      Char.ofNat 0x25A0 ∧
    (run 2 3 (init_state 2 3) ([key 'f', key 'l', key 'f'].take 3)).scr.cell
        (5 + 2 * 0) (3 + 4 * 1) =
      if lit (run 2 3 (init_state 2 3) ([key 'f', key 'l', key 'f'].take 3)).glyph 0 1
      then Char.ofNat 0x25A0 else Char.ofNat 0x25A1 :=
  ⟨by decide, screen_shows_bitmap 2 3 (by decide) (by decide) (by decide) (by decide)
    [key 'f', key 'l', key 'f'] 3 0 1 (by decide) (by decide) (by decide) (by decide)⟩

/-- C5: in every editor state, after key `c` every bitmap cell is dark, the logical
cursor is (0, 0) and the tracked screen coordinates are (5, 3); and a second `c` right
after gives the same bitmap, logical cursor and screen coordinates as the first. -/
theorem clear_idempotent (n_y n_x : Int) (s : State) :
    (∀ i j : Int, ¬ lit (loop_body n_y n_x s (key 'c')).glyph i j) ∧
    (loop_body n_y n_x s (key 'c')).c = 0 ∧
    (loop_body n_y n_x s (key 'c')).r = 0 ∧
    (loop_body n_y n_x s (key 'c')).c_y = 5 ∧
    (loop_body n_y n_x s (key 'c')).c_x = 3 ∧
    (loop_body n_y n_x (loop_body n_y n_x s (key 'c')) (key 'c')).glyph =
      (loop_body n_y n_x s (key 'c')).glyph ∧
    (loop_body n_y n_x (loop_body n_y n_x s (key 'c')) (key 'c')).c =
      (loop_body n_y n_x s (key 'c')).c ∧
    (loop_body n_y n_x (loop_body n_y n_x s (key 'c')) (key 'c')).r =
      (loop_body n_y n_x s (key 'c')).r ∧
    (loop_body n_y n_x (loop_body n_y n_x s (key 'c')) (key 'c')).c_y =
      (loop_body n_y n_x s (key 'c')).c_y ∧
    (loop_body n_y n_x (loop_body n_y n_x s (key 'c')) (key 'c')).c_x =
      (loop_body n_y n_x s (key 'c')).c_x := by
  simp only [loop_body_clear, C_Y, C_X, and_self, and_true]
  intro i j
  unfold lit
  rw [glyph_at_zero]
  decide

theorem paint_frame (n_y n_x : Int) (hy : n_y ≤ 10) (hx : n_x ≤ 5) (s : State)
    (hinv : Inv n_y n_x s) (v : Char) :
    glyph_at (glyph_set s.glyph s.c s.r v) s.c s.r = v ∧
    ∀ i j : Int, 0 ≤ i → i < 10 → 0 ≤ j → j < 5 → ¬ (i = s.c ∧ j = s.r) →
      glyph_at (glyph_set s.glyph s.c s.r v) i j = glyph_at s.glyph i j := by
  have h5 := hinv.c_lo
  have h6 := hinv.c_hi
  have h7 := hinv.r_lo
  have h8 := hinv.r_hi
  refine ⟨glyph_at_set_same _ _ _ _ hinv.len (by omega) (by omega), ?_⟩
  intro i j hi0 hi hj0 hj hne
  apply glyph_at_set_other
  intro ho
  apply hne
  constructor <;> omega

/-- C4: in every reachable editor state, key `f` (resp. `d`) makes the bitmap cell at
the logical cursor (row index `c`, column index `r`) lit (resp. dark), leaves every
other cell of the bitmap with its value, and leaves the indices and the tracked
screen coordinates `(c_y, c_x)` as they are. -/
theorem paint_changes_only_cursor_cell (n_y n_x : Int) (hy1 : 1 ≤ n_y) (hy : n_y ≤ 10)
    (hx1 : 1 ≤ n_x) (hx : n_x ≤ 5) (s : State) (hs : Reachable n_y n_x s) :
    (lit (loop_body n_y n_x s (key 'f')).glyph s.c s.r ∧
      (∀ i j : Int, 0 ≤ i → i < 10 → 0 ≤ j → j < 5 → ¬ (i = s.c ∧ j = s.r) →
        glyph_at (loop_body n_y n_x s (key 'f')).glyph i j = glyph_at s.glyph i j) ∧
      (loop_body n_y n_x s (key 'f')).c = s.c ∧ (loop_body n_y n_x s (key 'f')).r = s.r ∧
      (loop_body n_y n_x s (key 'f')).c_y = s.c_y ∧
      (loop_body n_y n_x s (key 'f')).c_x = s.c_x) ∧
    (¬ lit (loop_body n_y n_x s (key 'd')).glyph s.c s.r ∧
      (∀ i j : Int, 0 ≤ i → i < 10 → 0 ≤ j → j < 5 → ¬ (i = s.c ∧ j = s.r) →
        glyph_at (loop_body n_y n_x s (key 'd')).glyph i j = glyph_at s.glyph i j) ∧
      (loop_body n_y n_x s (key 'd')).c = s.c ∧ (loop_body n_y n_x s (key 'd')).r = s.r ∧
      (loop_body n_y n_x s (key 'd')).c_y = s.c_y ∧
      (loop_body n_y n_x s (key 'd')).c_x = s.c_x) := by
  have hinv := reachable_inv n_y n_x hy1 hy hx1 hx s hs
  rw [(loop_body_paint n_y n_x s hinv).1, (loop_body_paint n_y n_x s hinv).2]
  have hf := paint_frame n_y n_x hy hx s hinv '1'
  have hd := paint_frame n_y n_x hy hx s hinv '0'
  refine ⟨⟨hf.1, hf.2, rfl, rfl, rfl, rfl⟩, ⟨?_, hd.2, rfl, rfl, rfl, rfl⟩⟩
  unfold lit
  simp only
  rw [hd.1]
  decide

/-- Witness of C4: the initial state of a 2 x 3 grid. -/
theorem paint_changes_only_cursor_cell_witness :
    Reachable 2 3 (init_state 2 3) ∧
    (lit (loop_body 2 3 (init_state 2 3) (key 'f')).glyph 0 0 ∧
      (∀ i j : Int, 0 ≤ i → i < 10 → 0 ≤ j → j < 5 → ¬ (i = 0 ∧ j = 0) →
        glyph_at (loop_body 2 3 (init_state 2 3) (key 'f')).glyph i j =
          glyph_at (init_state 2 3).glyph i j) ∧
      (loop_body 2 3 (init_state 2 3) (key 'f')).c = 0 ∧
      (loop_body 2 3 (init_state 2 3) (key 'f')).r = 0 ∧
      (loop_body 2 3 (init_state 2 3) (key 'f')).c_y = 5 ∧
      (loop_body 2 3 (init_state 2 3) (key 'f')).c_x = 3) ∧
    (¬ lit (loop_body 2 3 (init_state 2 3) (key 'd')).glyph 0 0 ∧
      (∀ i j : Int, 0 ≤ i → i < 10 → 0 ≤ j → j < 5 → ¬ (i = 0 ∧ j = 0) →
        glyph_at (loop_body 2 3 (init_state 2 3) (key 'd')).glyph i j =
          glyph_at (init_state 2 3).glyph i j) ∧
      (loop_body 2 3 (init_state 2 3) (key 'd')).c = 0 ∧
      (loop_body 2 3 (init_state 2 3) (key 'd')).r = 0 ∧
      (loop_body 2 3 (init_state 2 3) (key 'd')).c_y = 5 ∧
      (loop_body 2 3 (init_state 2 3) (key 'd')).c_x = 3) :=
  ⟨⟨[], rfl⟩, paint_changes_only_cursor_cell 2 3 (by decide) (by decide) (by decide)
    (by decide) (init_state 2 3) ⟨[], rfl⟩⟩

/-- C6: in every reachable editor state (`rows` in [1,10], `cols` in [1,5]), `k` or
KEY_UP takes 1 from the row index if it is > 0 and else changes nothing, `j` or
KEY_DOWN adds 1 to it if it is < rows-1 and else changes nothing, `h` or KEY_LEFT
takes 1 from the column index if it is > 0 and else changes nothing, `l` or
KEY_RIGHT adds 1 to it if it is < cols-1 and else changes nothing; a move leaves the
other index and the bitmap alone, and the letter and the arrow of a direction give
the same state. -/
theorem move_keys_step_and_clamp (n_y n_x : Int) (hy1 : 1 ≤ n_y) (hy : n_y ≤ 10)
    (hx1 : 1 ≤ n_x) (hx : n_x ≤ 5) (s : State) (hs : Reachable n_y n_x s) :
    (∀ ch : Int, ch = key 'k' ∨ ch = KEY_UP →
      (0 < s.c → (loop_body n_y n_x s ch).c = s.c - 1) ∧
      (¬ 0 < s.c → loop_body n_y n_x s ch = s) ∧
      (loop_body n_y n_x s ch).r = s.r ∧ (loop_body n_y n_x s ch).glyph = s.glyph) ∧
    (∀ ch : Int, ch = key 'j' ∨ ch = KEY_DOWN →
      (s.c < n_y - 1 → (loop_body n_y n_x s ch).c = s.c + 1) ∧
      (¬ s.c < n_y - 1 → loop_body n_y n_x s ch = s) ∧
      (loop_body n_y n_x s ch).r = s.r ∧ (loop_body n_y n_x s ch).glyph = s.glyph) ∧
    (∀ ch : Int, ch = key 'h' ∨ ch = KEY_LEFT →
      (0 < s.r → (loop_body n_y n_x s ch).r = s.r - 1) ∧
      (¬ 0 < s.r → loop_body n_y n_x s ch = s) ∧
      (loop_body n_y n_x s ch).c = s.c ∧ (loop_body n_y n_x s ch).glyph = s.glyph) ∧
    (∀ ch : Int, ch = key 'l' ∨ ch = KEY_RIGHT →
      (s.r < n_x - 1 → (loop_body n_y n_x s ch).r = s.r + 1) ∧
      (¬ s.r < n_x - 1 → loop_body n_y n_x s ch = s) ∧
      (loop_body n_y n_x s ch).c = s.c ∧ (loop_body n_y n_x s ch).glyph = s.glyph) ∧
    loop_body n_y n_x s (key 'k') = loop_body n_y n_x s KEY_UP ∧
    loop_body n_y n_x s (key 'j') = loop_body n_y n_x s KEY_DOWN ∧
    loop_body n_y n_x s (key 'h') = loop_body n_y n_x s KEY_LEFT ∧
    loop_body n_y n_x s (key 'l') = loop_body n_y n_x s KEY_RIGHT := by
  have hinv := reachable_inv n_y n_x hy1 hy hx1 hx s hs
  refine ⟨?_, ?_, ?_, ?_, ?_, ?_, ?_, ?_⟩
  · intro ch hk
    rw [loop_body_up n_y n_x s ch hk hinv]
    by_cases hc : 0 < s.c <;> simp [hc]
  · intro ch hk
    rw [loop_body_down n_y n_x s ch hk hinv]
    by_cases hc : s.c < n_y - 1 <;> simp [hc]
  · intro ch hk
    rw [loop_body_left n_y n_x s ch hk hinv]
    by_cases hc : 0 < s.r <;> simp [hc]
  · intro ch hk
    rw [loop_body_right n_y n_x s ch hk hinv]
    by_cases hc : s.r < n_x - 1 <;> simp [hc]
  · rw [loop_body_up n_y n_x s _ (Or.inl rfl) hinv, loop_body_up n_y n_x s _ (Or.inr rfl) hinv]
  · rw [loop_body_down n_y n_x s _ (Or.inl rfl) hinv,
      loop_body_down n_y n_x s _ (Or.inr rfl) hinv]
  · rw [loop_body_left n_y n_x s _ (Or.inl rfl) hinv,
      loop_body_left n_y n_x s _ (Or.inr rfl) hinv]
  · rw [loop_body_right n_y n_x s _ (Or.inl rfl) hinv,
      loop_body_right n_y n_x s _ (Or.inr rfl) hinv]

/-- Witness of C6: on a 3 x 3 grid after one `j` the row index is 1; `k` takes it back
to 0, `j` takes it to 2, and `h` at column 0 changes nothing. -/
theorem move_keys_step_and_clamp_witness :
    Reachable 3 3 (run 3 3 (init_state 3 3) [key 'j']) ∧
    (loop_body 3 3 (run 3 3 (init_state 3 3) [key 'j']) (key 'k')).c = 1 - 1 ∧
    (loop_body 3 3 (run 3 3 (init_state 3 3) [key 'j']) KEY_DOWN).c = 1 + 1 ∧
    loop_body 3 3 (run 3 3 (init_state 3 3) [key 'j']) (key 'h') =
      run 3 3 (init_state 3 3) [key 'j'] :=
  ⟨⟨[key 'j'], rfl⟩,
    ((move_keys_step_and_clamp 3 3 (by decide) (by decide) (by decide) (by decide)
      (run 3 3 (init_state 3 3) [key 'j']) ⟨[key 'j'], rfl⟩).1 (key 'k') (Or.inl rfl)).1
      (by decide),
    ((move_keys_step_and_clamp 3 3 (by decide) (by decide) (by decide) (by decide)
      (run 3 3 (init_state 3 3) [key 'j']) ⟨[key 'j'], rfl⟩).2.1 KEY_DOWN (Or.inr rfl)).1
      (by decide),
    ((move_keys_step_and_clamp 3 3 (by decide) (by decide) (by decide) (by decide)
      (run 3 3 (init_state 3 3) [key 'j']) ⟨[key 'j'], rfl⟩).2.2.1 (key 'h') (Or.inl rfl)).2.1
      (by decide)⟩

/-! ## The code refines the abstract model -/

theorem init_sim (rows cols : Nat) :
    Sim rows cols (init_state rows cols) (Spec.init rows cols) := by
  refine ⟨rfl, rfl, rfl, rfl, ?_, rfl⟩
  intro i j _ _
  simp only [init_state, Spec.init, glyph_at_zero]
  decide

theorem sim_step (rows cols : Nat) (hy : rows ≤ 10) (hx : cols ≤ 5) (s : State)
    (m : Spec.Model) (hinv : Inv rows cols s) (hsim : Sim rows cols s m) (ch : Int)
    (hq : ch ≠ key 'q') :
    Sim rows cols (loop_body rows cols s ch) (Spec.dispatch m ch) := by
  obtain ⟨m1, m2, m3, m4, m5, m6⟩ := hsim
  have hy' : (rows : Int) ≤ 10 := by exact_mod_cast hy
  have hx' : (cols : Int) ≤ 5 := by exact_mod_cast hx
  by_cases k1 : ch = key 'k' ∨ ch = KEY_UP
  · rw [loop_body_up _ _ s ch k1 hinv]
    simp only [Spec.dispatch, k1, if_true, Spec.move]
    by_cases hc : 0 < m.cr
    · have hc' : 0 < s.c := by omega
      rw [if_pos hc, if_pos hc']
      exact ⟨m1, m2, by simp only; omega, m4, m5, m6⟩
    · have hc' : ¬ 0 < s.c := by omega
      rw [if_neg hc, if_neg hc']
      exact ⟨m1, m2, m3, m4, m5, m6⟩
  by_cases k2 : ch = key 'j' ∨ ch = KEY_DOWN
  · rw [loop_body_down _ _ s ch k2 hinv]
    simp only [Spec.dispatch, k1, k2, if_true, if_false, Spec.move]
    by_cases hc : m.cr + 1 < m.rows
    · have hc' : s.c < (rows : Int) - 1 := by omega
      rw [if_pos hc, if_pos hc']
      exact ⟨m1, m2, by simp only; omega, m4, m5, m6⟩
    · have hc' : ¬ s.c < (rows : Int) - 1 := by omega
      rw [if_neg hc, if_neg hc']
      exact ⟨m1, m2, m3, m4, m5, m6⟩
  by_cases k3 : ch = key 'h' ∨ ch = KEY_LEFT
  · rw [loop_body_left _ _ s ch k3 hinv]
    simp only [Spec.dispatch, k1, k2, k3, if_true, if_false, Spec.move]
    by_cases hc : 0 < m.cc
    · have hc' : 0 < s.r := by omega
      rw [if_pos hc, if_pos hc']
      exact ⟨m1, m2, m3, by simp only; omega, m5, m6⟩
    · have hc' : ¬ 0 < s.r := by omega
      rw [if_neg hc, if_neg hc']
      exact ⟨m1, m2, m3, m4, m5, m6⟩
  by_cases k4 : ch = key 'l' ∨ ch = KEY_RIGHT
  · rw [loop_body_right _ _ s ch k4 hinv]
    simp only [Spec.dispatch, k1, k2, k3, k4, if_true, if_false, Spec.move]
    by_cases hc : m.cc + 1 < m.cols
    · have hc' : s.r < (cols : Int) - 1 := by omega
      rw [if_pos hc, if_pos hc']
      exact ⟨m1, m2, m3, by simp only; omega, m5, m6⟩
    · have hc' : ¬ s.r < (cols : Int) - 1 := by omega
      rw [if_neg hc, if_neg hc']
      exact ⟨m1, m2, m3, m4, m5, m6⟩
  by_cases k5 : ch = key 'f'
  · rw [k5, (loop_body_paint _ _ s hinv).1]
    have hd : Spec.dispatch m (key 'f') = Spec.paint m true := by
      simp [Spec.dispatch, key_k, key_j, key_h, key_l, key_f, KEY_UP, KEY_DOWN, KEY_LEFT,
        KEY_RIGHT]
    rw [hd]
    have hf := paint_frame _ _ hy' hx' s hinv '1'
    refine ⟨m1, m2, m3, m4, ?_, m6⟩
    intro i j hi hj
    simp only [Spec.paint]
    by_cases hij : i = m.cr ∧ j = m.cc
    · obtain ⟨rfl, rfl⟩ := hij
      rw [← m3, ← m4, hf.1]
      simp
    · have hne : ¬ ((i : Int) = s.c ∧ (j : Int) = s.r) := by
        intro h
        apply hij
        constructor <;> omega
      rw [hf.2 i j (by omega) (by omega) (by omega) (by omega) hne, if_neg hij]
      exact m5 i j hi hj
  by_cases k6 : ch = key 'd'
  · rw [k6, (loop_body_paint _ _ s hinv).2]
    have hd : Spec.dispatch m (key 'd') = Spec.paint m false := by
      simp [Spec.dispatch, key_k, key_j, key_h, key_l, key_f, key_d, KEY_UP, KEY_DOWN,
        KEY_LEFT, KEY_RIGHT]
    rw [hd]
    have hf := paint_frame _ _ hy' hx' s hinv '0'
    refine ⟨m1, m2, m3, m4, ?_, m6⟩
    intro i j hi hj
    simp only [Spec.paint]
    by_cases hij : i = m.cr ∧ j = m.cc
    · obtain ⟨rfl, rfl⟩ := hij
      rw [← m3, ← m4, hf.1]
      simp
    · have hne : ¬ ((i : Int) = s.c ∧ (j : Int) = s.r) := by
        intro h
        apply hij
        constructor <;> omega
      rw [hf.2 i j (by omega) (by omega) (by omega) (by omega) hne, if_neg hij]
      exact m5 i j hi hj
  by_cases k7 : ch = key 'c'
  · rw [k7, loop_body_clear]
    have hd : Spec.dispatch m (key 'c') = Spec.clear_all m := by
      simp [Spec.dispatch, key_k, key_j, key_h, key_l, key_f, key_d, key_c, KEY_UP, KEY_DOWN,
        KEY_LEFT, KEY_RIGHT]
    rw [hd]
    refine ⟨m1, m2, rfl, rfl, ?_, m6⟩
    intro i j _ _
    simp only [Spec.clear_all, glyph_at_zero]
    decide
  · rw [loop_body_other _ _ s ch k1 k2 k3 k4 k5 k6 k7 hq]
    have hd : Spec.dispatch m ch = m := by
      simp [Spec.dispatch, k1, k2, k3, k4, k5, k6, k7]
    rw [hd]
    exact ⟨m1, m2, m3, m4, m5, m6⟩

theorem run_sim (rows cols : Nat) (hy1 : 1 ≤ rows) (hy : rows ≤ 10) (hx1 : 1 ≤ cols)
    (hx : cols ≤ 5) (ks : List Int) (s : State) (m : Spec.Model)
    (hinv : Inv rows cols s) (hsim : Sim rows cols s m) (hq : key 'q' ∉ ks) :
    (run rows cols s (ks ++ [key 'q'])).exit_cond = true ∧
    (Spec.run m ks).rows = rows ∧ (Spec.run m ks).cols = cols ∧
    ∀ i j : Nat, i < rows → j < cols →
      (glyph_at (run rows cols s (ks ++ [key 'q'])).glyph i j = '1' ↔
        (Spec.run m ks).cells i j = true) := by
  induction ks generalizing s m with
  | nil =>
    simp only [List.nil_append, run, hsim.running, Bool.false_eq_true, if_false,
      loop_body_quit, Spec.run, List.foldl_nil]
    exact ⟨trivial, hsim.rows_eq, hsim.cols_eq, hsim.cells_eq⟩
  | cons ch rest ih =>
    have hch : ch ≠ key 'q' := fun h => hq (by simp [h])
    have hrest : key 'q' ∉ rest := fun h => hq (by simp [h])
    simp only [List.cons_append, run, hsim.running, Bool.false_eq_true, if_false, Spec.run,
      List.foldl_cons]
    exact ih _ _
      (loop_body_inv _ _ s ch (by exact_mod_cast hy1) (by exact_mod_cast hy)
        (by exact_mod_cast hx1) (by exact_mod_cast hx) hinv)
      (sim_step rows cols hy hx s m hinv hsim ch hch) hrest

theorem encode_eq (g : Glyph) (m : Spec.Model) (rows cols : Nat) (hx : cols ≤ 5)
    (hr : m.rows = rows) (hc : m.cols = cols)
    (hcells : ∀ i j : Nat, i < rows → j < cols → (glyph_at g i j = '1' ↔ m.cells i j = true))
    (fmt : output_fmt) :
    (List.range rows).map (fun (r : Nat) => output_row g cols fmt (r : Int)) =
      Spec.encode m fmt := by
  unfold Spec.encode
  rw [hr]
  apply List.map_congr_left
  intro r hr'
  have hr2 : r < rows := List.mem_range.mp hr'
  cases fmt with
  | BIN =>
    rw [output_row_bin g cols r (by omega)]
    simp only [Spec.encode_row, hc]
    congr 2
    apply List.map_congr_left
    intro c hc'
    have h := hcells r c hr2 (List.mem_range.mp hc')
    unfold bin_char
    by_cases hl : glyph_at g r c = '1'
    · simp [hl, h.mp hl]
    · have : m.cells r c = false := by
        cases hm : m.cells r c
        · rfl
        · exact absurd (h.mpr hm) hl
      simp [hl, this]
  | HEX =>
    rw [output_row_hex g cols r (by omega), base2_body]
    simp only [Spec.encode_row, Spec.row_value, hc]
    congr 3
    apply Finset.sum_congr rfl
    intro c hc'
    have h := hcells r c hr2 (Finset.mem_range.mp hc')
    unfold bit
    by_cases hl : glyph_at g r c = '1'
    · simp [hl, h.mp hl]
    · have : m.cells r c = false := by
        cases hm : m.cells r c
        · rfl
        · exact absurd (h.mpr hm) hl
      simp [hl, this]

/-- C7: for `rows` in [1,10], `cols` in [1,5], either format and every key sequence
without `q` followed by a final `q`, the program ends and the data lines it prints
are the encoding of the bitmap that the abstract model of the specification computes
on the same keys. -/
theorem main_refines_model (rows cols : Nat) (hy1 : 1 ≤ rows) (hy : rows ≤ 10)
    (hx1 : 1 ≤ cols) (hx : cols ≤ 5) (fmt : output_fmt) (ks : List Int)
    (hq : key 'q' ∉ ks) :
    ∃ out : List String, main_body rows cols fmt (ks ++ [key 'q']) = some out ∧
      out.drop 2 = Spec.encode (Spec.run (Spec.init rows cols) ks) fmt := by
  have h := run_sim rows cols hy1 hy hx1 hx ks (init_state rows cols) (Spec.init rows cols)
    (init_inv _ _ (by exact_mod_cast hy1) (by exact_mod_cast hx1)) (init_sim rows cols) hq
  obtain ⟨he, hr, hc, hcells⟩ := h
  refine ⟨output_glyph (run rows cols (init_state rows cols) (ks ++ [key 'q'])).glyph
    rows cols fmt, ?_, ?_⟩
  · simp [main_body, he]
  · rw [← encode_eq _ _ rows cols hx hr hc hcells fmt]
    simp [output_glyph]

/-- Witness of C7: scenario S6 of the specification, `-c 4 -r 1 -f h` with the keys
`l l l f q`, prints the row `0x1`. -/
theorem main_refines_model_witness :
    main_body 1 4 HEX [key 'l', key 'l', key 'l', key 'f', key 'q'] =
      some ["Glyph (4 x 1)", "Format: hex", "  0x1"] ∧
    key 'q' ∉ [key 'l', key 'l', key 'l', key 'f'] ∧
    ∃ out : List String,
      main_body (1 : Nat) (4 : Nat) HEX ([key 'l', key 'l', key 'l', key 'f'] ++ [key 'q']) =
        some out ∧
      out.drop 2 =
        Spec.encode (Spec.run (Spec.init 1 4) [key 'l', key 'l', key 'l', key 'f']) HEX :=
  ⟨by decide, by decide,
    main_refines_model 1 4 (by decide) (by decide) (by decide) (by decide) HEX
      [key 'l', key 'l', key 'l', key 'f'] (by decide)⟩

/-- Scenario S1: `-c 3 -r 2 -f b`, keys `f q`. -/
theorem scenario_S1 :
    main_body 2 3 BIN [key 'f', key 'q'] =
      some ["Glyph (3 x 2)", "Format: bin", "  0b100", "  0b000"] := by decide

/-- Scenario S2: `-c 3 -r 2 -f h`, keys `f l f q`. -/
theorem scenario_S2 :
    main_body 2 3 HEX [key 'f', key 'l', key 'f', key 'q'] =
      some ["Glyph (3 x 2)", "Format: hex", "  0x6", "  0x0"] := by decide

/-- Scenario S3: `-c 5 -r 3 -f b`, keys `f l f l f l f l f q`. -/
theorem scenario_S3 :
    main_body 3 5 BIN [key 'f', key 'l', key 'f', key 'l', key 'f', key 'l', key 'f', key 'l',
        key 'f', key 'q'] =
      some ["Glyph (5 x 3)", "Format: bin", "  0b11111", "  0b00000", "  0b00000"] := by
  decide

/-- Scenario S4: `-c 3 -r 3 -f h`, keys `f j f j f q`. -/
theorem scenario_S4 :
    main_body 3 3 HEX [key 'f', key 'j', key 'f', key 'j', key 'f', key 'q'] =
      some ["Glyph (3 x 3)", "Format: hex", "  0x4", "  0x4", "  0x4"] := by decide

/-- Scenario S5: `-c 2 -r 2 -f b`, keys `f l f j d h d c q`. -/
theorem scenario_S5 :
    main_body 2 2 BIN [key 'f', key 'l', key 'f', key 'j', key 'd', key 'h', key 'd', key 'c',
        key 'q'] =
      some ["Glyph (2 x 2)", "Format: bin", "  0b00", "  0b00"] := by decide

/-! ## parse_options -/

theorem parse_loop_append (atoi : String → Int) (pre rest : List getopt_result)
    (hpre : ∀ e ∈ pre, e.opt = key 'r' ∨ e.opt = key 'c' ∨ e.opt = key 'f')
    (st : Int × Int × output_fmt) :
    ∃ st2, parse_loop atoi pre st = some st2 ∧
      parse_loop atoi (pre ++ rest) st = parse_loop atoi rest st2 := by
  induction pre generalizing st with
  | nil => exact ⟨st, rfl, rfl⟩
  | cons e pre ih =>
    obtain ⟨a, b, f⟩ := st
    have hrest : ∀ e ∈ pre, e.opt = key 'r' ∨ e.opt = key 'c' ∨ e.opt = key 'f' :=
      fun e he => hpre e (List.mem_cons_of_mem _ he)
    rcases hpre e (List.mem_cons_self _ _) with h | h | h
    · simpa [parse_loop, h, key_r] using ih hrest _
    · simpa [parse_loop, h, key_r, key_c] using ih hrest _
    · simpa [parse_loop, h, key_r, key_c, key_f] using ih hrest _

theorem parse_loop_keep_x (atoi : String → Int) (post : List getopt_result)
    (hpost : ∀ e ∈ post, e.opt = key 'r' ∨ e.opt = key 'c' ∨ e.opt = key 'f')
    (hno : ∀ e ∈ post, e.opt ≠ key 'c') (st st2 : Int × Int × output_fmt)
    (h : parse_loop atoi post st = some st2) : st2.2.1 = st.2.1 := by
  induction post generalizing st with
  | nil =>
    simp only [parse_loop, Option.some.injEq] at h
    rw [h]
  | cons e post ih =>
    obtain ⟨a, b, f⟩ := st
    have hrest : ∀ e ∈ post, e.opt = key 'r' ∨ e.opt = key 'c' ∨ e.opt = key 'f' :=
      fun e he => hpost e (List.mem_cons_of_mem _ he)
    have hno2 : ∀ e ∈ post, e.opt ≠ key 'c' := fun e he => hno e (List.mem_cons_of_mem _ he)
    rcases hpost e (List.mem_cons_self _ _) with h1 | h1 | h1
    · simp only [parse_loop, h1, key_r] at h
      have := ih hrest hno2 _ h
      simpa using this
    · exact absurd h1 (hno e (List.mem_cons_self _ _))
    · simp only [parse_loop, h1, key_r, key_c, key_f] at h
      have := ih hrest hno2 _ h
      simpa using this

theorem parse_loop_keep_y (atoi : String → Int) (post : List getopt_result)
    (hpost : ∀ e ∈ post, e.opt = key 'r' ∨ e.opt = key 'c' ∨ e.opt = key 'f')
    (hno : ∀ e ∈ post, e.opt ≠ key 'r') (st st2 : Int × Int × output_fmt)
    (h : parse_loop atoi post st = some st2) : st2.1 = st.1 := by
  induction post generalizing st with
  | nil =>
    simp only [parse_loop, Option.some.injEq] at h
    rw [h]
  | cons e post ih =>
    obtain ⟨a, b, f⟩ := st
    have hrest : ∀ e ∈ post, e.opt = key 'r' ∨ e.opt = key 'c' ∨ e.opt = key 'f' :=
      fun e he => hpost e (List.mem_cons_of_mem _ he)
    have hno2 : ∀ e ∈ post, e.opt ≠ key 'r' := fun e he => hno e (List.mem_cons_of_mem _ he)
    rcases hpost e (List.mem_cons_self _ _) with h1 | h1 | h1
    · exact absurd h1 (hno e (List.mem_cons_self _ _))
    · simp only [parse_loop, h1, key_r, key_c] at h
      have := ih hrest hno2 _ h
      simpa using this
    · simp only [parse_loop, h1, key_r, key_c, key_f] at h
      have := ih hrest hno2 _ h
      simpa using this

theorem clamp_options_eq (a b : Int) (f : output_fmt) :
    clamp_options (a, b, f) = (min (max a 1) 10, min (max b 1) 5, f) := by
  simp only [clamp_options, MAX_X, MAX_Y, Prod.mk.injEq, and_true]
  constructor <;> split_ifs <;> omega

/-- C9: when `parse_options` returns normally (every option is one of `-r`, `-c`,
`-f`), the effective dimensions satisfy `1 ≤ cols ≤ 5` and `1 ≤ rows ≤ 10`; the
column count is `min(max(n, 1), 5)` for `n` the integer parsed from the argument of
the last `-c`, and the row count is `min(max(m, 1), 10)` for `m` the integer parsed
from the argument of the last `-r`. -/
theorem parse_options_clamps (atoi : String → Int) (opts : List getopt_result)
    (hopts : ∀ e ∈ opts, e.opt = key 'r' ∨ e.opt = key 'c' ∨ e.opt = key 'f')
    (n_y0 n_x0 : Int) (fmt0 : output_fmt) :
    ∃ n_y n_x fmt, parse_options atoi opts n_y0 n_x0 fmt0 = some (n_y, n_x, fmt) ∧
      1 ≤ n_x ∧ n_x ≤ 5 ∧ 1 ≤ n_y ∧ n_y ≤ 10 ∧
      (∀ pre post s, opts = pre ++ getopt_result.mk (key 'c') s :: post →
        (∀ e ∈ post, e.opt ≠ key 'c') → n_x = min (max (atoi s) 1) 5) ∧
      (∀ pre post s, opts = pre ++ getopt_result.mk (key 'r') s :: post →
        (∀ e ∈ post, e.opt ≠ key 'r') → n_y = min (max (atoi s) 1) 10) := by
  obtain ⟨st, hst, _⟩ := parse_loop_append atoi opts [] hopts (n_y0, n_x0, fmt0)
  obtain ⟨a, b, f⟩ := st
  refine ⟨min (max a 1) 10, min (max b 1) 5, f, ?_, by omega, by omega, by omega, by omega,
    ?_, ?_⟩
  · simp [parse_options, hst, clamp_options_eq]
  · intro pre post s hsplit hno
    have hpre : ∀ e ∈ pre, e.opt = key 'r' ∨ e.opt = key 'c' ∨ e.opt = key 'f' :=
      fun e he => hopts e (by rw [hsplit]; exact List.mem_append_left _ he)
    have hpost : ∀ e ∈ post, e.opt = key 'r' ∨ e.opt = key 'c' ∨ e.opt = key 'f' :=
      fun e he => hopts e (by
        rw [hsplit]; exact List.mem_append_right _ (List.mem_cons_of_mem _ he))
    obtain ⟨st2, _, happ⟩ := parse_loop_append atoi pre (getopt_result.mk (key 'c') s :: post)
      hpre (n_y0, n_x0, fmt0)
    obtain ⟨a2, b2, f2⟩ := st2
    rw [← hsplit, hst] at happ
    simp only [parse_loop, key_r, key_c] at happ
    have := parse_loop_keep_x atoi post hpost hno _ _ (by simpa using happ.symm)
    simp only at this
    rw [this]
  · intro pre post s hsplit hno
    have hpre : ∀ e ∈ pre, e.opt = key 'r' ∨ e.opt = key 'c' ∨ e.opt = key 'f' :=
      fun e he => hopts e (by rw [hsplit]; exact List.mem_append_left _ he)
    have hpost : ∀ e ∈ post, e.opt = key 'r' ∨ e.opt = key 'c' ∨ e.opt = key 'f' :=
      fun e he => hopts e (by
        rw [hsplit]; exact List.mem_append_right _ (List.mem_cons_of_mem _ he))
    obtain ⟨st2, _, happ⟩ := parse_loop_append atoi pre (getopt_result.mk (key 'r') s :: post)
      hpre (n_y0, n_x0, fmt0)
    obtain ⟨a2, b2, f2⟩ := st2
    rw [← hsplit, hst] at happ
    simp only [parse_loop, key_r] at happ
    have := parse_loop_keep_y atoi post hpost hno _ _ (by simpa using happ.symm)
    simp only at this
    rw [this]

/-- Witness of C9: `-c 0`, `-c 99`, `-r 0` and `-r 99` give 1, 5, 1 and 10, an
in-range request is kept, and the theorem at `-c 99 -r 0`. -/
theorem parse_options_clamps_witness :
    parse_options atoi_digits [⟨key 'c', "0"⟩] N_Y N_X BIN = some (8, 1, BIN) ∧
    parse_options atoi_digits [⟨key 'c', "99"⟩] N_Y N_X BIN = some (8, 5, BIN) ∧
    parse_options atoi_digits [⟨key 'r', "0"⟩] N_Y N_X BIN = some (1, 5, BIN) ∧
    parse_options atoi_digits [⟨key 'r', "99"⟩] N_Y N_X BIN = some (10, 5, BIN) ∧
    parse_options atoi_digits [⟨key 'c', "3"⟩, ⟨key 'r', "7"⟩] N_Y N_X BIN = some (7, 3, BIN) ∧
    (∀ e ∈ [getopt_result.mk (key 'c') "99", getopt_result.mk (key 'r') "0"],
      e.opt = key 'r' ∨ e.opt = key 'c' ∨ e.opt = key 'f') ∧
    ∃ n_y n_x fmt,
      parse_options atoi_digits
        [getopt_result.mk (key 'c') "99", getopt_result.mk (key 'r') "0"] N_Y N_X BIN =
        some (n_y, n_x, fmt) ∧
      1 ≤ n_x ∧ n_x ≤ 5 ∧ 1 ≤ n_y ∧ n_y ≤ 10 ∧
      (∀ pre post s,
        [getopt_result.mk (key 'c') "99", getopt_result.mk (key 'r') "0"] =
          pre ++ getopt_result.mk (key 'c') s :: post →
        (∀ e ∈ post, e.opt ≠ key 'c') → n_x = min (max (atoi_digits s) 1) 5) ∧
      (∀ pre post s,
        [getopt_result.mk (key 'c') "99", getopt_result.mk (key 'r') "0"] =
          pre ++ getopt_result.mk (key 'r') s :: post →
        (∀ e ∈ post, e.opt ≠ key 'r') → n_y = min (max (atoi_digits s) 1) 10) :=
  ⟨by decide, by decide, by decide, by decide, by decide, by decide,
    parse_options_clamps atoi_digits
      [getopt_result.mk (key 'c') "99", getopt_result.mk (key 'r') "0"] (by decide)
      N_Y N_X BIN⟩

/-- C10: the usage message says that for `-f` the argument `h` or anything else
selects HEX, but `parse_options` sets HEX only for a first character `h`: with
`-f x` the format is BIN, also when it was HEX before. -/
theorem format_other_letter_gives_bin :
    (print_usage "glyphgen")[3]? =
      some "    -f      output format, b - binary, h or anything  else - HEX" ∧
    (∀ atoi : String → Int,
      parse_options atoi [⟨key 'f', "x"⟩] N_Y N_X BIN = some (8, 5, BIN)) ∧
    (∀ atoi : String → Int,
      parse_options atoi [⟨key 'f', "h"⟩, ⟨key 'f', "x"⟩] N_Y N_X BIN = some (8, 5, BIN)) ∧
    (∀ atoi : String → Int,
      parse_options atoi [⟨key 'f', "h"⟩] N_Y N_X BIN = some (8, 5, HEX)) := by
  exact ⟨by decide, fun _ => rfl, fun _ => rfl, fun _ => rfl⟩

end Glyphgen
